import Mathlib

/-!
Shallow embedding of the `tile_analyzer` measurement core
(`geometry.py`, `threshold.py`, `analyzer.py`).

Modelling conventions:
* Python floats holding millimetre coordinates, scales and ratios are
  modelled as exact rationals (`ℚ`); segment lengths, densities and the
  density threshold, which involve square roots and the IEEE infinity,
  are modelled as real numbers (`ℝ`) resp. extended reals (`EReal`).
* Pixel coordinates are integer pairs (`ℤ × ℤ`).
* A raster image is its shape together with the set of foreground
  (non-zero, i.e. 255-valued) pixel positions, a `Finset (ℤ × ℤ)`.
* OpenCV's line rasterizer `cv2.line` is external to the repository; the
  analyzer is parametrised over an arbitrary rasterization function
  `cvLine` mapping a shape and two endpoints to the set of painted
  pixels, so every theorem below holds for any rasterizer.
* Python exceptions (`ValueError`, the spec's `InvalidInputError` class)
  are modelled by `Except String`.
-/

namespace TileAnalyzer

abbrev PointMM := ℚ × ℚ
abbrev PointPX := ℤ × ℤ

/-- Python's built-in `round` on an exact rational: round to the nearest
integer, ties going to the even integer (banker's rounding). -/
def pyRound (q : ℚ) : ℤ :=
  if q - ⌊q⌋ < 1/2 then ⌊q⌋
  else if 1/2 < q - ⌊q⌋ then ⌊q⌋ + 1
  else if ⌊q⌋ % 2 = 0 then ⌊q⌋ else ⌊q⌋ + 1

/-- `geometry.compute_px_per_mm`: scale derived from the tile width;
raises (`Except.error`) when the millimetre width is not positive. -/
def compute_px_per_mm (px_tile_width mm_tile_width : ℚ) : Except String ℚ :=
  if mm_tile_width ≤ 0 then .error "Tile width in millimetres must be positive"
  else .ok (px_tile_width / mm_tile_width)

/-- `geometry.mm_to_px`: affine transform from millimetre space to pixel
space, flipping the vertical axis and rounding each coordinate with
Python's `round`. -/
def mm_to_px (points_mm : List PointMM) (px_per_mm : ℚ) (origin_px : PointPX) :
    List PointPX :=
  points_mm.map fun p =>
    (pyRound ((origin_px.1 : ℚ) + p.1 * px_per_mm),
     pyRound ((origin_px.2 : ℚ) - p.2 * px_per_mm))

lemma pyRound_le (q : ℚ) : pyRound q ≤ ⌊q⌋ + 1 := by
  unfold pyRound; split_ifs <;> omega

lemma le_pyRound (q : ℚ) : ⌊q⌋ ≤ pyRound q := by
  unfold pyRound; split_ifs <;> omega

lemma pyRound_mono {q r : ℚ} (h : q ≤ r) : pyRound q ≤ pyRound r := by
  rcases lt_or_le ⌊q⌋ ⌊r⌋ with hf | hf
  · have h1 := pyRound_le q
    have h2 := le_pyRound r
    omega
  · have hf' : ⌊q⌋ = ⌊r⌋ := le_antisymm (Int.floor_le_floor h) hf
    unfold pyRound
    rw [hf']
    split_ifs <;> first | omega | (exfalso; linarith)

/-- C10: `mm_to_px` returns exactly one pixel point per input millimetre
point, so converting `points_mm` with it always establishes the equal-length
invariant between `points_mm` and `points_px`. -/
theorem mm_to_px_preserves_length (pts : List PointMM) (s : ℚ) (o : PointPX) :
    (mm_to_px pts s o).length = pts.length := by
  simp [mm_to_px]

/-- C8: `compute_px_per_mm` fails (with an `InvalidInputError`-class error)
exactly when `mm_tile_width ≤ 0`, and otherwise returns
`px_tile_width / mm_tile_width`. -/
theorem compute_px_per_mm_spec (px mm : ℚ) :
    ((∃ e, compute_px_per_mm px mm = .error e) ↔ mm ≤ 0) ∧
    (0 < mm → compute_px_per_mm px mm = .ok (px / mm)) := by
  constructor
  · constructor
    · rintro ⟨e, he⟩
      by_contra hpos
      unfold compute_px_per_mm at he
      rw [if_neg hpos] at he
      exact Except.noConfusion he
    · intro h
      exact ⟨_, by unfold compute_px_per_mm; rw [if_pos h]⟩
  · intro h
    unfold compute_px_per_mm
    rw [if_neg (not_le.mpr h)]

theorem compute_px_per_mm_spec_witness :
    compute_px_per_mm 80 5 = .ok (80 / 5) ∧
    (∃ e, compute_px_per_mm 80 0 = .error e) :=
  ⟨(compute_px_per_mm_spec 80 5).2 (by norm_num),
   (compute_px_per_mm_spec 80 0).1.mpr (by norm_num)⟩

/-- C4 counterexample: with positive scale `1`, origin `(0, 0)` and two
input points that differ only in the x millimetre coordinate
(`0 < 1/4`), both points map to pixel x-coordinate `0`: the pixel X does
not strictly increase, because coordinates are rounded to whole pixels. -/
theorem mm_to_px_not_strictly_monotone :
    ((0:ℚ) < 1/4) ∧ ((0:ℚ) < 1) ∧
    mm_to_px [((0:ℚ), (0:ℚ)), ((1/4 : ℚ), (0:ℚ))] 1 ((0:ℤ), (0:ℤ)) =
      [((0:ℤ), (0:ℤ)), ((0:ℤ), (0:ℤ))] := by
  refine ⟨by norm_num, by norm_num, ?_⟩
  simp only [mm_to_px, List.map_cons, List.map_nil]
  norm_num [pyRound]

/-- C4 (amended): for positive scale, `mm_to_px` is monotone but not
strictly so: a strict increase of `x_mm` never decreases the pixel X, and
a strict increase of `y_mm` never increases the pixel Y (axis flip).
Determinism holds definitionally: the embedding is a pure function. -/
theorem mm_to_px_monotone (s : ℚ) (o : PointPX) (x1 x2 y x y1 y2 : ℚ)
    (hs : 0 < s) :
    (x1 < x2 →
      ((mm_to_px [(x1, y)] s o).headI).1 ≤ ((mm_to_px [(x2, y)] s o).headI).1) ∧
    (y1 < y2 →
      ((mm_to_px [(x, y2)] s o).headI).2 ≤ ((mm_to_px [(x, y1)] s o).headI).2) := by
  constructor
  · intro hx
    simp only [mm_to_px, List.map_cons, List.map_nil, List.headI]
    exact pyRound_mono (by nlinarith)
  · intro hy
    simp only [mm_to_px, List.map_cons, List.map_nil, List.headI]
    exact pyRound_mono (by nlinarith)

theorem mm_to_px_monotone_witness :
    ((0:ℚ) < 1 → ((mm_to_px [((0:ℚ), (0:ℚ))] 1 (0, 0)).headI).1 ≤
      ((mm_to_px [((1:ℚ), (0:ℚ))] 1 (0, 0)).headI).1) ∧
    ((0:ℚ) < 1 → ((mm_to_px [((0:ℚ), (1:ℚ))] 1 (0, 0)).headI).2 ≤
      ((mm_to_px [((0:ℚ), (0:ℚ))] 1 (0, 0)).headI).2) :=
  ⟨(mm_to_px_monotone 1 (0, 0) 0 1 0 0 0 1 (by norm_num)).1,
   (mm_to_px_monotone 1 (0, 0) 0 1 0 0 0 1 (by norm_num)).2⟩

/-- `geometry.segment_lengths_mm`: the Euclidean length of each consecutive
segment, via `zip(points_mm[:-1], points_mm[1:])`; empty for fewer than two
points. The float `** 0.5` is idealised as the exact real square root. -/
noncomputable def segment_lengths_mm (points_mm : List PointMM) : List ℝ :=
  if points_mm.length < 2 then []
  else (points_mm.dropLast.zip points_mm.tail).map fun pq =>
    Real.sqrt ((((pq.2.1 - pq.1.1) * (pq.2.1 - pq.1.1) +
                 (pq.2.2 - pq.1.2) * (pq.2.2 - pq.1.2) : ℚ) : ℝ))

lemma segment_lengths_mm_length (pts : List PointMM) :
    (segment_lengths_mm pts).length = pts.length - 1 := by
  unfold segment_lengths_mm
  split_ifs with h
  · simp only [List.length_nil]; omega
  · simp only [List.length_map, List.length_zip, List.length_dropLast,
      List.length_tail]
    omega

lemma segment_lengths_mm_nonneg (pts : List PointMM) :
    ∀ l ∈ segment_lengths_mm pts, 0 ≤ l := by
  unfold segment_lengths_mm
  split_ifs with h
  · simp
  · intro l hl
    simp only [List.mem_map] at hl
    obtain ⟨pq, -, rfl⟩ := hl
    exact Real.sqrt_nonneg _

/-- C7: for `n` input points, `segment_lengths_mm` yields exactly `n - 1`
values, the `i`-th being the Euclidean distance between points `i` and
`i + 1`; for fewer than two points it yields the empty sequence. -/
theorem segment_lengths_mm_spec (pts : List PointMM) :
    (segment_lengths_mm pts).length = pts.length - 1 ∧
    (pts.length < 2 → segment_lengths_mm pts = []) ∧
    ∀ i, i + 1 < pts.length →
      (segment_lengths_mm pts).getD i 0 =
        Real.sqrt ((((pts.getD (i+1) (0,0)).1 : ℝ) - ((pts.getD i (0,0)).1 : ℝ))^2 +
                   (((pts.getD (i+1) (0,0)).2 : ℝ) - ((pts.getD i (0,0)).2 : ℝ))^2) := by
  refine ⟨segment_lengths_mm_length pts, ?_, ?_⟩
  · intro h
    unfold segment_lengths_mm
    rw [if_pos h]
  · intro i hi
    have hlen : i < (segment_lengths_mm pts).length := by
      rw [segment_lengths_mm_length]; omega
    have hi' : i < pts.length := by omega
    rw [List.getD_eq_getElem _ _ hlen, List.getD_eq_getElem _ _ hi,
        List.getD_eq_getElem _ _ hi']
    have h2 : ¬ pts.length < 2 := by omega
    unfold segment_lengths_mm
    simp only [h2, if_false]
    have hmap : i < ((pts.dropLast.zip pts.tail).map fun pq =>
        Real.sqrt ((((pq.2.1 - pq.1.1) * (pq.2.1 - pq.1.1) +
                     (pq.2.2 - pq.1.2) * (pq.2.2 - pq.1.2) : ℚ) : ℝ))).length := by
      simpa [List.length_zip] using (by omega : i < min (pts.length - 1) (pts.length - 1))
    rw [List.getElem_map]
    rw [List.getElem_zip]
    rw [List.getElem_dropLast, List.getElem_tail]
    congr 1
    push_cast
    ring

theorem segment_lengths_mm_spec_witness :
    (0 + 1 < ([((0:ℚ), (0:ℚ)), ((3:ℚ), (4:ℚ))] : List PointMM).length) ∧
    (segment_lengths_mm [((0:ℚ), (0:ℚ)), ((3:ℚ), (4:ℚ))]).getD 0 0 =
      Real.sqrt (((([((0:ℚ), (0:ℚ)), ((3:ℚ), (4:ℚ))].getD (0+1) (0,0)).1 : ℝ) -
                  (([((0:ℚ), (0:ℚ)), ((3:ℚ), (4:ℚ))].getD 0 (0,0)).1 : ℝ))^2 +
                 ((([((0:ℚ), (0:ℚ)), ((3:ℚ), (4:ℚ))].getD (0+1) (0,0)).2 : ℝ) -
                  (([((0:ℚ), (0:ℚ)), ((3:ℚ), (4:ℚ))].getD 0 (0,0)).2 : ℝ))^2) :=
  ⟨by norm_num,
   (segment_lengths_mm_spec [((0:ℚ), (0:ℚ)), ((3:ℚ), (4:ℚ))]).2.2 0 (by norm_num)⟩

/-- `threshold.ThresholdResult`: metadata of one binarization. -/
structure ThresholdResult where
  threshold_value : ℚ
  line_color : String
  white_ratio : ℚ
  deriving DecidableEq

/-- `np.median` on the flattened grayscale values: the middle element of the
sorted list for an odd count, the mean of the two middle elements for an even
count. (NumPy yields NaN for an empty array; the junk value 0 stands in for
it and is never relied upon.) -/
def npMedian (vals : List ℚ) : ℚ :=
  let s := vals.insertionSort (· ≤ ·)
  let n := s.length
  if n = 0 then 0
  else if n % 2 = 1 then s.getD (n / 2) 0
  else (s.getD (n / 2 - 1) 0 + s.getD (n / 2) 0) / 2

/-- `cv2.threshold(gray, thresh, 255, cv2.THRESH_BINARY)`: pixels strictly
above the threshold become 255, all others 0. -/
def cvThreshold (gray : List (List ℚ)) (thresh : ℚ) : List (List ℕ) :=
  gray.map (List.map fun v => if thresh < v then 255 else 0)

/-- `cv2.countNonZero`: the number of non-zero pixels. -/
def countNonZero (img : List (List ℕ)) : ℕ :=
  (img.flatten.filter (· ≠ 0)).length

/-- `cv2.bitwise_not` on a uint8 raster: every value `v` becomes `255 - v`. -/
def cvBitwiseNot (img : List (List ℕ)) : List (List ℕ) :=
  img.map (List.map fun v => 255 - v)

/-- `threshold.binarize_line`, taking the already-grayscale frame (the BGR →
gray conversion `cv2.cvtColor` is upstream plumbing outside the repository):
threshold at the median, measure the white ratio, and flip polarity when
white is the majority class. -/
def binarize_line (gray : List (List ℚ)) : (List (List ℕ)) × ThresholdResult :=
  let median_value := npMedian gray.flatten
  let binary := cvThreshold gray median_value
  let white_pixels := countNonZero binary
  let total_pixels := binary.flatten.length
  let white_ratio : ℚ :=
    if total_pixels ≠ 0 then (white_pixels : ℚ) / total_pixels else 0
  if white_ratio ≥ 1/2 then
    (cvBitwiseNot binary, ⟨median_value, "dark", white_ratio⟩)
  else
    (binary, ⟨median_value, "light", white_ratio⟩)

lemma cvThreshold_join_length (gray : List (List ℚ)) (t : ℚ) :
    (cvThreshold gray t).flatten.length = gray.flatten.length := by
  unfold cvThreshold
  rw [← List.map_flatten, List.length_map]

lemma countNonZero_le (img : List (List ℕ)) :
    countNonZero img ≤ img.flatten.length :=
  List.length_filter_le _ _

/-- C6: `binarize_line` computes `white_ratio` as the fraction of
above-median pixels over the total pixel count (a rational in `[0, 1]`);
when `white_ratio ≥ 1/2` it returns the inverted binary mask with
`line_color = "dark"`, otherwise the unmodified binary mask with
`line_color = "light"`. -/
theorem binarize_line_spec (gray : List (List ℚ)) :
    (binarize_line gray).2.white_ratio =
      (if gray.flatten.length ≠ 0 then
        ((countNonZero (cvThreshold gray (npMedian gray.flatten)) : ℚ) / gray.flatten.length)
      else 0) ∧
    0 ≤ (binarize_line gray).2.white_ratio ∧
    (binarize_line gray).2.white_ratio ≤ 1 ∧
    (1/2 ≤ (binarize_line gray).2.white_ratio →
      (binarize_line gray).1 = cvBitwiseNot (cvThreshold gray (npMedian gray.flatten)) ∧
      (binarize_line gray).2.line_color = "dark") ∧
    ((binarize_line gray).2.white_ratio < 1/2 →
      (binarize_line gray).1 = cvThreshold gray (npMedian gray.flatten) ∧
      (binarize_line gray).2.line_color = "light") := by
  have hlen := cvThreshold_join_length gray (npMedian gray.flatten)
  have hcount := countNonZero_le (cvThreshold gray (npMedian gray.flatten))
  rw [hlen] at hcount
  simp only [binarize_line, hlen]
  set B := cvThreshold gray (npMedian gray.flatten) with hB
  set N := gray.flatten.length with hN
  by_cases h0 : N = 0
  · simp only [h0, ne_eq, not_true_eq_false, if_false, ite_false]
    norm_num
  · have hNpos : (0 : ℚ) < N := by exact_mod_cast Nat.pos_of_ne_zero h0
    have hr0 : (0 : ℚ) ≤ (countNonZero B : ℚ) / N :=
      div_nonneg (by positivity) (le_of_lt hNpos)
    have hr1 : (countNonZero B : ℚ) / N ≤ 1 := by
      rw [div_le_one hNpos]
      exact_mod_cast hcount
    simp only [h0, ne_eq, not_false_eq_true, if_true, ite_true]
    split_ifs with hge
    · exact ⟨rfl, hr0, hr1, fun _ => ⟨rfl, rfl⟩,
        fun hlt => absurd hge (not_le.mpr hlt)⟩
    · exact ⟨rfl, hr0, hr1, fun hge2 => absurd hge2 hge,
        fun _ => ⟨rfl, rfl⟩⟩

theorem binarize_line_spec_witness :
    ((binarize_line [[(0:ℚ), 1], [2, 3]]).1 =
      cvBitwiseNot (cvThreshold [[(0:ℚ), 1], [2, 3]]
        (npMedian ([[(0:ℚ), 1], [2, 3]] : List (List ℚ)).flatten)) ∧
     (binarize_line [[(0:ℚ), 1], [2, 3]]).2.line_color = "dark") ∧
    ((binarize_line [[(10:ℚ), 10], [10, 0]]).1 =
      cvThreshold [[(10:ℚ), 10], [10, 0]]
        (npMedian ([[(10:ℚ), 10], [10, 0]] : List (List ℚ)).flatten) ∧
     (binarize_line [[(10:ℚ), 10], [10, 0]]).2.line_color = "light") :=
  ⟨(binarize_line_spec [[(0:ℚ), 1], [2, 3]]).2.2.2.1 (by
      norm_num [binarize_line, npMedian, cvThreshold, countNonZero,
        List.insertionSort, List.orderedInsert]),
   (binarize_line_spec [[(10:ℚ), 10], [10, 0]]).2.2.2.2 (by
      norm_num [binarize_line, npMedian, cvThreshold, countNonZero,
        List.insertionSort, List.orderedInsert])⟩

/-- `analyzer.SegmentReport`: the density record for one segment. The
Python float `density`, which can be `+inf`, is an extended real. -/
structure SegmentReport where
  index : ℕ
  start_px : PointPX
  end_px : PointPX
  length_mm : ℝ
  pixels_on_line : ℕ
  density : EReal
  deriving Inhabited

/-- `analyzer.PolylineReport`. -/
structure PolylineReport where
  segments : List SegmentReport
  average_density : ℝ
  verdict : String

/-- A raster image: its pixel dimensions together with the set of
foreground (non-zero, i.e. 255-valued) pixel positions. -/
structure Image where
  height : ℕ
  width : ℕ
  fg : Finset PointPX

/-- The type of `cv2.line` rasterizers: the set of pixels painted by a
one-pixel-wide line of the given endpoints into a raster of the given
shape. The analyzer is parametrised over it, so every theorem holds for
any rasterization algorithm. -/
abbrev Rasterizer := (ℕ × ℕ) → PointPX → PointPX → Finset PointPX

/-- `analyzer._draw_segment_mask`: a blank raster of the given shape with
a single-pixel line for the segment. -/
def draw_segment_mask (cvLine : Rasterizer) (shape : ℕ × ℕ) (s e : PointPX) :
    Finset PointPX :=
  cvLine shape s e

/-- `np.isfinite` on a density value. -/
def isFinite (d : EReal) : Prop := d ≠ ⊤ ∧ d ≠ ⊥

/-- The body of the per-segment loop of `analyzer.analyze_polyline`: a
non-positive-length segment reports `density = +∞` and `pixels_on_line = 0`;
otherwise the ideal line is rasterized, intersected (`cv2.bitwise_and`)
with the ink mask, its foreground pixels counted, and the density is
pixels per millimetre. -/
noncomputable def measureSegment (cvLine : Rasterizer) (line_mask : Image)
    (idx : ℕ) (start_px end_px : PointPX) (length_mm : ℝ) : SegmentReport :=
  if length_mm ≤ 0 then
    ⟨idx, start_px, end_px, length_mm, 0, ⊤⟩
  else
    let segment_mask :=
      draw_segment_mask cvLine (line_mask.height, line_mask.width) start_px end_px
    let painted := line_mask.fg ∩ segment_mask
    ⟨idx, start_px, end_px, length_mm, painted.card,
      (((painted.card : ℝ) / length_mm : ℝ) : EReal)⟩

/-- The `for idx, ((start_px, end_px), length_mm) in enumerate(...)` loop:
one report per zipped segment, indices counting up from `idx`. -/
noncomputable def measureSegments (cvLine : Rasterizer) (line_mask : Image) :
    ℕ → List ((PointPX × PointPX) × ℝ) → List SegmentReport
  | _, [] => []
  | idx, (se, len) :: rest =>
      measureSegment cvLine line_mask idx se.1 se.2 len ::
        measureSegments cvLine line_mask (idx + 1) rest

open scoped Classical in
/-- The `weighted_density` accumulator: densities weighted by length,
summed over the finite-density segments only. -/
noncomputable def weighted_density (reports : List SegmentReport) : ℝ :=
  (reports.map fun r =>
    if isFinite r.density then r.density.toReal * r.length_mm else 0).sum

open scoped Classical in
/-- The `total_length` accumulator: lengths summed over the
finite-density segments only. -/
noncomputable def total_length (reports : List SegmentReport) : ℝ :=
  (reports.map fun r => if isFinite r.density then r.length_mm else 0).sum

open scoped Classical in
/-- `average_density = weighted_density / total_length if total_length > 0
else 0.0`. -/
noncomputable def average_density_of (reports : List SegmentReport) : ℝ :=
  if total_length reports > 0 then weighted_density reports / total_length reports
  else 0

open scoped Classical in
/-- `verdict = "pass" if all(report.density >= min_density or not
np.isfinite(report.density) ...) else "fail"`. -/
noncomputable def verdict_of (reports : List SegmentReport) (min_density : ℝ) :
    String :=
  if ∀ r ∈ reports, ((min_density : EReal) ≤ r.density ∨ ¬ isFinite r.density)
  then "pass" else "fail"

/-- The successful branch of `analyzer.analyze_polyline`. -/
noncomputable def analyzeCore (cvLine : Rasterizer) (line_mask : Image)
    (points_mm : List PointMM) (points_px : List PointPX) (min_density : ℝ) :
    PolylineReport :=
  let lengths_mm := segment_lengths_mm points_mm
  let reports := measureSegments cvLine line_mask 0
    ((points_px.dropLast.zip points_px.tail).zip lengths_mm)
  ⟨reports, average_density_of reports, verdict_of reports min_density⟩

/-- `analyzer.analyze_polyline`: the three fail-fast validation checks, in
source order, then the per-segment measurement and aggregation. -/
noncomputable def analyze_polyline (cvLine : Rasterizer) (line_mask : Image)
    (points_mm : List PointMM) (points_px : List PointPX) (min_density : ℝ) :
    Except String PolylineReport :=
  if points_mm.length ≠ points_px.length then
    .error "points_mm and points_px must contain the same number of points"
  else if points_px.length < 2 then
    .error "At least two points are required to describe a polyline"
  else if (segment_lengths_mm points_mm).length ≠ points_px.length - 1 then
    .error "Mismatch between number of segments and computed lengths"
  else
    .ok (analyzeCore cvLine line_mask points_mm points_px min_density)

/-- A rasterizer painting no pixels, used to instantiate witnesses. -/
def noLine : Rasterizer := fun _ _ _ => ∅

/-- A tiny all-background image, used to instantiate witnesses. -/
def emptyImage : Image := ⟨2, 2, ∅⟩

lemma analyze_polyline_ok_iff {cvLine : Rasterizer} {line_mask : Image}
    {points_mm : List PointMM} {points_px : List PointPX} {min_density : ℝ}
    {rep : PolylineReport}
    (h : analyze_polyline cvLine line_mask points_mm points_px min_density = .ok rep) :
    points_mm.length = points_px.length ∧ 2 ≤ points_px.length ∧
    rep = analyzeCore cvLine line_mask points_mm points_px min_density := by
  unfold analyze_polyline at h
  split_ifs at h with h1 h2 h3
  exact ⟨by omega, by omega, (Except.ok.injEq _ _ ▸ h).symm⟩

lemma analyze_polyline_ok_of_checks {cvLine : Rasterizer} {line_mask : Image}
    {points_mm : List PointMM} {points_px : List PointPX} {min_density : ℝ}
    (h1 : points_mm.length = points_px.length) (h2 : 2 ≤ points_px.length) :
    analyze_polyline cvLine line_mask points_mm points_px min_density =
      .ok (analyzeCore cvLine line_mask points_mm points_px min_density) := by
  have h3 : (segment_lengths_mm points_mm).length = points_px.length - 1 := by
    rw [segment_lengths_mm_length, h1]
  unfold analyze_polyline
  rw [if_neg (by omega), if_neg (by omega), if_neg (by omega)]

lemma measureSegment_fields (cvLine : Rasterizer) (line_mask : Image)
    (idx : ℕ) (s e : PointPX) (len : ℝ) :
    (measureSegment cvLine line_mask idx s e len).index = idx ∧
    (measureSegment cvLine line_mask idx s e len).start_px = s ∧
    (measureSegment cvLine line_mask idx s e len).end_px = e ∧
    (measureSegment cvLine line_mask idx s e len).length_mm = len := by
  unfold measureSegment
  split_ifs <;> exact ⟨rfl, rfl, rfl, rfl⟩

lemma measureSegment_zero_length (cvLine : Rasterizer) (line_mask : Image)
    (idx : ℕ) (s e : PointPX) {len : ℝ} (hlen : len ≤ 0) :
    measureSegment cvLine line_mask idx s e len = ⟨idx, s, e, len, 0, ⊤⟩ := by
  unfold measureSegment
  rw [if_pos hlen]

lemma measureSegment_pos_length (cvLine : Rasterizer) (line_mask : Image)
    (idx : ℕ) (s e : PointPX) {len : ℝ} (hlen : 0 < len) :
    ∃ p : ℕ, measureSegment cvLine line_mask idx s e len =
      ⟨idx, s, e, len, p, (((p : ℝ) / len : ℝ) : EReal)⟩ := by
  unfold measureSegment
  rw [if_neg (not_le.mpr hlen)]
  exact ⟨_, rfl⟩

lemma isFinite_coe (x : ℝ) : isFinite (x : EReal) :=
  ⟨EReal.coe_ne_top x, EReal.coe_ne_bot x⟩

lemma not_isFinite_top : ¬ isFinite (⊤ : EReal) := fun h => h.1 rfl

lemma measureSegments_sound (cvLine : Rasterizer) (line_mask : Image)
    (k : ℕ) (ps : List ((PointPX × PointPX) × ℝ)) :
    ∀ r ∈ measureSegments cvLine line_mask k ps,
      (isFinite r.density ↔ 0 < r.length_mm) ∧
      (r.length_mm ≤ 0 → r.density = ⊤ ∧ r.pixels_on_line = 0) := by
  induction ps generalizing k with
  | nil => intro r hr; exact absurd hr (List.not_mem_nil r)
  | cons hd tl ih =>
    obtain ⟨se, len⟩ := hd
    intro r hr
    rw [measureSegments, List.mem_cons] at hr
    rcases hr with rfl | hr
    · rcases le_or_lt len 0 with hl | hl
      · rw [measureSegment_zero_length cvLine line_mask k se.1 se.2 hl]
        exact ⟨⟨fun hf => absurd hf not_isFinite_top, fun hp => absurd hp (by simpa using hl)⟩,
          fun _ => ⟨rfl, rfl⟩⟩
      · obtain ⟨p, hp⟩ := measureSegment_pos_length cvLine line_mask k se.1 se.2 hl
        rw [hp]
        exact ⟨⟨fun _ => hl, fun _ => isFinite_coe _⟩,
          fun hle => absurd hle (not_le.mpr hl)⟩
    · exact ih (k + 1) r hr

lemma measureSegments_length (cvLine : Rasterizer) (line_mask : Image)
    (k : ℕ) (ps : List ((PointPX × PointPX) × ℝ)) :
    (measureSegments cvLine line_mask k ps).length = ps.length := by
  induction ps generalizing k with
  | nil => rfl
  | cons hd tl ih =>
    obtain ⟨se, len⟩ := hd
    rw [measureSegments, List.length_cons, List.length_cons, ih]

lemma measureSegments_getD (cvLine : Rasterizer) (line_mask : Image)
    (k : ℕ) (ps : List ((PointPX × PointPX) × ℝ)) (i : ℕ) (h : i < ps.length) :
    (measureSegments cvLine line_mask k ps).getD i default =
      measureSegment cvLine line_mask (k + i)
        (ps.getD i default).1.1 (ps.getD i default).1.2 (ps.getD i default).2 := by
  induction ps generalizing k i with
  | nil => exact absurd h (by simp)
  | cons hd tl ih =>
    obtain ⟨se, len⟩ := hd
    cases i with
    | zero =>
      rw [measureSegments, List.getD_cons_zero, List.getD_cons_zero, Nat.add_zero]
    | succ n =>
      have hn : n < tl.length := by simpa using h
      rw [measureSegments, List.getD_cons_succ, List.getD_cons_succ, ih (k + 1) n hn]
      have : k + 1 + n = k + (n + 1) := by omega
      rw [this]

lemma verdict_of_cases (reports : List SegmentReport) (m : ℝ) :
    (verdict_of reports m = "pass" ↔
      ∀ r ∈ reports, ((m : EReal) ≤ r.density ∨ ¬ isFinite r.density)) ∧
    (verdict_of reports m = "fail" ↔
      ∃ r ∈ reports, isFinite r.density ∧ r.density < (m : EReal)) := by
  have hne : ("pass" : String) ≠ "fail" := by decide
  unfold verdict_of
  split_ifs with hc
  · refine ⟨iff_of_true rfl hc, iff_of_false hne ?_⟩
    rintro ⟨r, hr, hfin, hlt⟩
    rcases hc r hr with hle | hnf
    · exact absurd hle (not_le.mpr hlt)
    · exact hnf hfin
  · refine ⟨iff_of_false (fun he => hne he.symm) hc, iff_of_true rfl ?_⟩
    push_neg at hc
    obtain ⟨r, hr, hlt, hfin⟩ := hc
    exact ⟨r, hr, hfin, hlt⟩

lemma total_length_nonneg {reports : List SegmentReport}
    (hfin : ∀ r ∈ reports, isFinite r.density → 0 < r.length_mm) :
    0 ≤ total_length reports := by
  unfold total_length
  apply List.sum_nonneg
  intro x hx
  simp only [List.mem_map] at hx
  obtain ⟨r, hr, rfl⟩ := hx
  split_ifs with hf
  · exact le_of_lt (hfin r hr hf)
  · exact le_refl 0

lemma analyzeCore_parts (cvLine : Rasterizer) (line_mask : Image)
    (points_mm : List PointMM) (points_px : List PointPX) (min_density : ℝ) :
    (analyzeCore cvLine line_mask points_mm points_px min_density).segments =
      measureSegments cvLine line_mask 0
        ((points_px.dropLast.zip points_px.tail).zip (segment_lengths_mm points_mm)) ∧
    (analyzeCore cvLine line_mask points_mm points_px min_density).average_density =
      average_density_of (measureSegments cvLine line_mask 0
        ((points_px.dropLast.zip points_px.tail).zip (segment_lengths_mm points_mm))) ∧
    (analyzeCore cvLine line_mask points_mm points_px min_density).verdict =
      verdict_of (measureSegments cvLine line_mask 0
        ((points_px.dropLast.zip points_px.tail).zip (segment_lengths_mm points_mm)))
        min_density :=
  ⟨rfl, rfl, rfl⟩

/-- C1: on every successful `analyze_polyline` call, the verdict is `"fail"`
iff some segment report has a finite density strictly below `min_density`,
and equivalently `"pass"` iff every segment has density at least
`min_density` or non-finite (infinite) density. -/
theorem analyze_polyline_verdict_spec (cvLine : Rasterizer) (line_mask : Image)
    (points_mm : List PointMM) (points_px : List PointPX) (min_density : ℝ)
    (rep : PolylineReport)
    (h : analyze_polyline cvLine line_mask points_mm points_px min_density = .ok rep) :
    (rep.verdict = "fail" ↔
      ∃ r ∈ rep.segments, isFinite r.density ∧ r.density < (min_density : EReal)) ∧
    (rep.verdict = "pass" ↔
      ∀ r ∈ rep.segments, ((min_density : EReal) ≤ r.density ∨ ¬ isFinite r.density)) := by
  obtain ⟨-, -, rfl⟩ := analyze_polyline_ok_iff h
  obtain ⟨hs, -, hv⟩ :=
    analyzeCore_parts cvLine line_mask points_mm points_px min_density
  rw [hs, hv]
  exact ⟨(verdict_of_cases _ _).2, (verdict_of_cases _ _).1⟩

theorem analyze_polyline_verdict_spec_witness :
    ((analyzeCore noLine emptyImage [((0:ℚ), (0:ℚ)), ((0:ℚ), (0:ℚ))]
        [((0:ℤ), (0:ℤ)), ((1:ℤ), (1:ℤ))] (1/2)).verdict = "fail" ↔
      ∃ r ∈ (analyzeCore noLine emptyImage [((0:ℚ), (0:ℚ)), ((0:ℚ), (0:ℚ))]
        [((0:ℤ), (0:ℤ)), ((1:ℤ), (1:ℤ))] (1/2)).segments,
        isFinite r.density ∧ r.density < (((1:ℝ)/2 : ℝ) : EReal)) ∧
    ((analyzeCore noLine emptyImage [((0:ℚ), (0:ℚ)), ((0:ℚ), (0:ℚ))]
        [((0:ℤ), (0:ℤ)), ((1:ℤ), (1:ℤ))] (1/2)).verdict = "pass" ↔
      ∀ r ∈ (analyzeCore noLine emptyImage [((0:ℚ), (0:ℚ)), ((0:ℚ), (0:ℚ))]
        [((0:ℤ), (0:ℤ)), ((1:ℤ), (1:ℤ))] (1/2)).segments,
        ((((1:ℝ)/2 : ℝ) : EReal) ≤ r.density ∨ ¬ isFinite r.density)) :=
  analyze_polyline_verdict_spec noLine emptyImage _ _ _ _
    (analyze_polyline_ok_of_checks (by decide) (by decide))

open scoped Classical in
/-- Modelled from the spec's aggregation rule: the sum over finite-density
segments of `density * length_mm`, divided by the sum over those same
segments of `length_mm`; `0` when that denominator is `0`. -/
noncomputable def average_density_spec (segs : List SegmentReport) : ℝ :=
  if (segs.map fun r => if isFinite r.density then r.length_mm else 0).sum = 0 then 0
  else (segs.map fun r =>
          if isFinite r.density then r.density.toReal * r.length_mm else 0).sum /
       (segs.map fun r => if isFinite r.density then r.length_mm else 0).sum

/-- C2: on every successful `analyze_polyline` call, `average_density` is
the length-weighted mean of the finite segment densities, and `0` when no
segment has finite density (zero denominator). -/
theorem analyze_polyline_average_spec (cvLine : Rasterizer) (line_mask : Image)
    (points_mm : List PointMM) (points_px : List PointPX) (min_density : ℝ)
    (rep : PolylineReport)
    (h : analyze_polyline cvLine line_mask points_mm points_px min_density = .ok rep) :
    rep.average_density = average_density_spec rep.segments := by
  obtain ⟨-, -, rfl⟩ := analyze_polyline_ok_iff h
  obtain ⟨hs, ha, -⟩ :=
    analyzeCore_parts cvLine line_mask points_mm points_px min_density
  rw [hs, ha]
  set reports := measureSegments cvLine line_mask 0
    ((points_px.dropLast.zip points_px.tail).zip (segment_lengths_mm points_mm))
    with hreports
  have hsound := measureSegments_sound cvLine line_mask 0
    ((points_px.dropLast.zip points_px.tail).zip (segment_lengths_mm points_mm))
  rw [← hreports] at hsound
  have hnn : 0 ≤ total_length reports :=
    total_length_nonneg (fun r hr hf => ((hsound r hr).1.mp hf))
  unfold average_density_of average_density_spec
  unfold weighted_density total_length at hnn ⊢
  rcases eq_or_lt_of_le hnn with he | hlt
  · rw [if_neg (by rw [← he]; exact lt_irrefl 0), if_pos he.symm]
  · rw [if_pos hlt, if_neg (ne_of_gt hlt)]

theorem analyze_polyline_average_spec_witness :
    (analyzeCore noLine emptyImage [((0:ℚ), (0:ℚ)), ((3:ℚ), (4:ℚ))]
        [((0:ℤ), (0:ℤ)), ((1:ℤ), (1:ℤ))] (1/2)).average_density =
      average_density_spec (analyzeCore noLine emptyImage
        [((0:ℚ), (0:ℚ)), ((3:ℚ), (4:ℚ))]
        [((0:ℤ), (0:ℤ)), ((1:ℤ), (1:ℤ))] (1/2)).segments :=
  analyze_polyline_average_spec noLine emptyImage _ _ _ _
    (analyze_polyline_ok_of_checks (by decide) (by decide))

open scoped Classical in
lemma sum_if_finite_filter (f : SegmentReport → ℝ) (reports : List SegmentReport)
    (hfin : ∀ r ∈ reports, isFinite r.density → 0 < r.length_mm) :
    (reports.map fun r => if isFinite r.density then f r else 0).sum =
      ((reports.filter fun r => decide (0 < r.length_mm)).map fun r =>
        if isFinite r.density then f r else 0).sum := by
  induction reports with
  | nil => rfl
  | cons hd tl ih =>
    have hfin' : ∀ r ∈ tl, isFinite r.density → 0 < r.length_mm :=
      fun r hr => hfin r (List.mem_cons_of_mem _ hr)
    by_cases hpos : 0 < hd.length_mm
    · rw [List.filter_cons_of_pos (by simpa using hpos), List.map_cons, List.map_cons,
        List.sum_cons, List.sum_cons, ih hfin']
    · have hnf : ¬ isFinite hd.density :=
        fun hf => hpos (hfin hd (List.mem_cons_self hd tl) hf)
      rw [List.filter_cons_of_neg (by simpa using hpos), List.map_cons, List.sum_cons,
        if_neg hnf, zero_add, ih hfin']

/-- C3: on every successful `analyze_polyline` call, a segment's density is
finite iff its length is positive; every non-positive-length segment
reports `density = +∞` and `pixels_on_line = 0`, contributes nothing to the
weighted-average sums (restricting them to positive-length segments changes
nothing), and a `"fail"` verdict is always caused by a positive-length
segment. -/
theorem analyze_polyline_zero_length_spec (cvLine : Rasterizer) (line_mask : Image)
    (points_mm : List PointMM) (points_px : List PointPX) (min_density : ℝ)
    (rep : PolylineReport)
    (h : analyze_polyline cvLine line_mask points_mm points_px min_density = .ok rep) :
    (∀ r ∈ rep.segments,
      (isFinite r.density ↔ 0 < r.length_mm) ∧
      (r.length_mm ≤ 0 → r.density = ⊤ ∧ r.pixels_on_line = 0)) ∧
    weighted_density rep.segments =
      weighted_density (rep.segments.filter fun r => decide (0 < r.length_mm)) ∧
    total_length rep.segments =
      total_length (rep.segments.filter fun r => decide (0 < r.length_mm)) ∧
    (rep.verdict = "fail" →
      ∃ r ∈ rep.segments, 0 < r.length_mm ∧ isFinite r.density ∧
        r.density < (min_density : EReal)) := by
  obtain ⟨-, -, rfl⟩ := analyze_polyline_ok_iff h
  obtain ⟨hs, -, hv⟩ :=
    analyzeCore_parts cvLine line_mask points_mm points_px min_density
  rw [hs, hv]
  have hsound := measureSegments_sound cvLine line_mask 0
    ((points_px.dropLast.zip points_px.tail).zip (segment_lengths_mm points_mm))
  have hfin : ∀ r ∈ measureSegments cvLine line_mask 0
      ((points_px.dropLast.zip points_px.tail).zip (segment_lengths_mm points_mm)),
      isFinite r.density → 0 < r.length_mm :=
    fun r hr hf => ((hsound r hr).1.mp hf)
  refine ⟨hsound, ?_, ?_, ?_⟩
  · unfold weighted_density
    exact sum_if_finite_filter _ _ hfin
  · unfold total_length
    exact sum_if_finite_filter _ _ hfin
  · intro hfail
    obtain ⟨r, hr, hrfin, hlt⟩ := (verdict_of_cases _ min_density).2.mp hfail
    exact ⟨r, hr, (hsound r hr).1.mp hrfin, hrfin, hlt⟩

theorem analyze_polyline_zero_length_spec_witness :
    (∀ r ∈ (analyzeCore noLine emptyImage [((0:ℚ), (0:ℚ)), ((0:ℚ), (0:ℚ))]
        [((0:ℤ), (0:ℤ)), ((1:ℤ), (1:ℤ))] (1/2)).segments,
      (isFinite r.density ↔ 0 < r.length_mm) ∧
      (r.length_mm ≤ 0 → r.density = ⊤ ∧ r.pixels_on_line = 0)) ∧
    weighted_density (analyzeCore noLine emptyImage [((0:ℚ), (0:ℚ)), ((0:ℚ), (0:ℚ))]
        [((0:ℤ), (0:ℤ)), ((1:ℤ), (1:ℤ))] (1/2)).segments =
      weighted_density ((analyzeCore noLine emptyImage [((0:ℚ), (0:ℚ)), ((0:ℚ), (0:ℚ))]
        [((0:ℤ), (0:ℤ)), ((1:ℤ), (1:ℤ))] (1/2)).segments.filter
          fun r => decide (0 < r.length_mm)) ∧
    total_length (analyzeCore noLine emptyImage [((0:ℚ), (0:ℚ)), ((0:ℚ), (0:ℚ))]
        [((0:ℤ), (0:ℤ)), ((1:ℤ), (1:ℤ))] (1/2)).segments =
      total_length ((analyzeCore noLine emptyImage [((0:ℚ), (0:ℚ)), ((0:ℚ), (0:ℚ))]
        [((0:ℤ), (0:ℤ)), ((1:ℤ), (1:ℤ))] (1/2)).segments.filter
          fun r => decide (0 < r.length_mm)) ∧
    ((analyzeCore noLine emptyImage [((0:ℚ), (0:ℚ)), ((0:ℚ), (0:ℚ))]
        [((0:ℤ), (0:ℤ)), ((1:ℤ), (1:ℤ))] (1/2)).verdict = "fail" →
      ∃ r ∈ (analyzeCore noLine emptyImage [((0:ℚ), (0:ℚ)), ((0:ℚ), (0:ℚ))]
        [((0:ℤ), (0:ℤ)), ((1:ℤ), (1:ℤ))] (1/2)).segments,
        0 < r.length_mm ∧ isFinite r.density ∧
          r.density < (((1:ℝ)/2 : ℝ) : EReal)) :=
  analyze_polyline_zero_length_spec noLine emptyImage _ _ _ _
    (analyze_polyline_ok_of_checks (by decide) (by decide))

/-- C9: every successful `analyze_polyline` call with `n` points returns
exactly `n - 1` segment reports in polyline order: the `i`-th has
`index = i`, `start_px = points_px[i]`, `end_px = points_px[i+1]` and
`length_mm` equal to the `i`-th computed segment length of `points_mm`. -/
theorem analyze_polyline_report_structure (cvLine : Rasterizer) (line_mask : Image)
    (points_mm : List PointMM) (points_px : List PointPX) (min_density : ℝ)
    (rep : PolylineReport)
    (h : analyze_polyline cvLine line_mask points_mm points_px min_density = .ok rep) :
    rep.segments.length = points_px.length - 1 ∧
    ∀ i, i < rep.segments.length →
      (rep.segments.getD i default).index = i ∧
      (rep.segments.getD i default).start_px = points_px.getD i (0, 0) ∧
      (rep.segments.getD i default).end_px = points_px.getD (i + 1) (0, 0) ∧
      (rep.segments.getD i default).length_mm =
        (segment_lengths_mm points_mm).getD i 0 := by
  obtain ⟨h1, h2, rfl⟩ := analyze_polyline_ok_iff h
  obtain ⟨hs, -, -⟩ :=
    analyzeCore_parts cvLine line_mask points_mm points_px min_density
  rw [hs]
  have hsl := segment_lengths_mm_length points_mm
  have hpslen : ((points_px.dropLast.zip points_px.tail).zip
      (segment_lengths_mm points_mm)).length = points_px.length - 1 := by
    simp only [List.length_zip, List.length_dropLast, List.length_tail, hsl, h1]
    omega
  constructor
  · rw [measureSegments_length, hpslen]
  · intro i hi
    rw [measureSegments_length, hpslen] at hi
    have hips : i < ((points_px.dropLast.zip points_px.tail).zip
        (segment_lengths_mm points_mm)).length := by omega
    have hipx : i < points_px.length := by omega
    have hipx1 : i + 1 < points_px.length := by omega
    have hil : i < (segment_lengths_mm points_mm).length := by rw [hsl, h1]; omega
    have hgetps : ((points_px.dropLast.zip points_px.tail).zip
        (segment_lengths_mm points_mm)).getD i default =
        ((points_px[i], points_px[i + 1]), (segment_lengths_mm points_mm)[i]) := by
      rw [List.getD_eq_getElem _ _ hips]
      rw [List.getElem_zip, List.getElem_zip, List.getElem_dropLast, List.getElem_tail]
    have e1 : (((points_px.dropLast.zip points_px.tail).zip
        (segment_lengths_mm points_mm)).getD i default).1.1 = points_px.getD i (0, 0) := by
      rw [hgetps, List.getD_eq_getElem _ _ hipx]
    have e2 : (((points_px.dropLast.zip points_px.tail).zip
        (segment_lengths_mm points_mm)).getD i default).1.2 =
        points_px.getD (i + 1) (0, 0) := by
      rw [hgetps, List.getD_eq_getElem _ _ hipx1]
    have e3 : (((points_px.dropLast.zip points_px.tail).zip
        (segment_lengths_mm points_mm)).getD i default).2 =
        (segment_lengths_mm points_mm).getD i 0 := by
      rw [hgetps, List.getD_eq_getElem _ _ hil]
    rw [measureSegments_getD cvLine line_mask 0 _ i hips]
    obtain ⟨hidx, hst, hen, hlen⟩ := measureSegment_fields cvLine line_mask (0 + i)
      (((points_px.dropLast.zip points_px.tail).zip
        (segment_lengths_mm points_mm)).getD i default).1.1
      (((points_px.dropLast.zip points_px.tail).zip
        (segment_lengths_mm points_mm)).getD i default).1.2
      (((points_px.dropLast.zip points_px.tail).zip
        (segment_lengths_mm points_mm)).getD i default).2
    exact ⟨by rw [hidx]; exact Nat.zero_add i,
           by rw [hst, e1], by rw [hen, e2], by rw [hlen, e3]⟩

theorem analyze_polyline_report_structure_witness :
    (analyzeCore noLine emptyImage [((0:ℚ), (0:ℚ)), ((3:ℚ), (4:ℚ))]
      [((0:ℤ), (0:ℤ)), ((1:ℤ), (1:ℤ))] (1/2)).segments.length =
      ([((0:ℤ), (0:ℤ)), ((1:ℤ), (1:ℤ))] : List PointPX).length - 1 ∧
    ∀ i, i < (analyzeCore noLine emptyImage [((0:ℚ), (0:ℚ)), ((3:ℚ), (4:ℚ))]
      [((0:ℤ), (0:ℤ)), ((1:ℤ), (1:ℤ))] (1/2)).segments.length →
      ((analyzeCore noLine emptyImage [((0:ℚ), (0:ℚ)), ((3:ℚ), (4:ℚ))]
        [((0:ℤ), (0:ℤ)), ((1:ℤ), (1:ℤ))] (1/2)).segments.getD i default).index = i ∧
      ((analyzeCore noLine emptyImage [((0:ℚ), (0:ℚ)), ((3:ℚ), (4:ℚ))]
        [((0:ℤ), (0:ℤ)), ((1:ℤ), (1:ℤ))] (1/2)).segments.getD i default).start_px =
        ([((0:ℤ), (0:ℤ)), ((1:ℤ), (1:ℤ))] : List PointPX).getD i (0, 0) ∧
      ((analyzeCore noLine emptyImage [((0:ℚ), (0:ℚ)), ((3:ℚ), (4:ℚ))]
        [((0:ℤ), (0:ℤ)), ((1:ℤ), (1:ℤ))] (1/2)).segments.getD i default).end_px =
        ([((0:ℤ), (0:ℤ)), ((1:ℤ), (1:ℤ))] : List PointPX).getD (i + 1) (0, 0) ∧
      ((analyzeCore noLine emptyImage [((0:ℚ), (0:ℚ)), ((3:ℚ), (4:ℚ))]
        [((0:ℤ), (0:ℤ)), ((1:ℤ), (1:ℤ))] (1/2)).segments.getD i default).length_mm =
        (segment_lengths_mm [((0:ℚ), (0:ℚ)), ((3:ℚ), (4:ℚ))]).getD i 0 :=
  analyze_polyline_report_structure noLine emptyImage _ _ _ _
    (analyze_polyline_ok_of_checks (by decide) (by decide))

/-- C5: whenever the point sequences have different lengths, or fewer than
two pixel points are given, or the computed lengths disagree with the
segment count, `analyze_polyline` raises an `InvalidInputError`-class error
and produces no report; in particular three millimetre points with two
pixel points raise. -/
theorem analyze_polyline_invalid_input (cvLine : Rasterizer) (line_mask : Image)
    (points_mm : List PointMM) (points_px : List PointPX) (min_density : ℝ)
    (h : points_mm.length ≠ points_px.length ∨ points_px.length < 2 ∨
         (segment_lengths_mm points_mm).length ≠ points_px.length - 1) :
    ∃ e, analyze_polyline cvLine line_mask points_mm points_px min_density =
      .error e := by
  unfold analyze_polyline
  split_ifs with h1 h2 h3
  · exact ⟨_, rfl⟩
  · exact ⟨_, rfl⟩
  · exact ⟨_, rfl⟩
  · rcases h with h | h | h
    · exact (h1 h).elim
    · exact (h2 h).elim
    · exact (h3 h).elim

theorem analyze_polyline_invalid_input_witness :
    ∃ e, analyze_polyline noLine emptyImage
      [((0:ℚ), (0:ℚ)), ((1:ℚ), (0:ℚ)), ((2:ℚ), (0:ℚ))]
      [((0:ℤ), (0:ℤ)), ((1:ℤ), (1:ℤ))] (1/2) = .error e :=
  analyze_polyline_invalid_input noLine emptyImage _ _ _ (Or.inl (by decide))

end TileAnalyzer
